import Mathlib

/-!
# StepTracker — verification of the core algorithms of `src/app.js`

A shallow embedding of the step-tracking web application's core logic:
the walk-session stop path (`stopTracking`), the live pace readout
(`updateTimer`), the persistence layer (`saveWalk` / `loadWalks` /
`deleteWalk`), the period filter (`getFilteredWalks`), the statistics
aggregator (`updateHistoryStats`), and the motion-processing pipeline
(`handleMotion`: signal filter plus step detector).

Numbers held in JavaScript floating point are embedded as exact rationals
(`Rat`) where the code is pure arithmetic, and as reals where a square root
occurs (the acceleration magnitude).  Timestamps (`Date.now()`, epoch
milliseconds) are embedded as `Int`.
-/

namespace StepTracker

/-- A completed walk as pushed to the store by `stopTracking`
(`src/app.js` lines 192–197).  The `date` field records the ISO-8601
string `new Date().toISOString()` by its epoch-millisecond value: ISO
strings at millisecond precision are in bijection with their epoch value,
and only order and equality of dates are ever used by the code. -/
structure WalkRecord where
  date : Int
  duration : Int
  steps : Nat
  stepsPerMinute : Rat
deriving DecidableEq, Repr

/-- Model of JavaScript `x.toFixed(1)` followed by `parseFloat` on the
nonnegative finite numbers the app produces: round to one decimal place,
ties upward (ECMAScript `toFixed` picks the larger candidate on a tie). -/
def toFixed1 (q : Rat) : Rat := (⌊q * 10 + 1 / 2⌋ : Int) / 10

/-- Model of JavaScript `Math.round`: round to the nearest integer,
half toward positive infinity. -/
def jsRound (q : Rat) : Int := ⌊q + 1 / 2⌋

/-- The stepsPerMinute readout computed on each timer tick by
`updateTimer` (`src/app.js` lines 230–234): `stepCount / (elapsedTime /
60000)` rendered with `toFixed(1)`, and `0` when `elapsedTime` is not
positive. -/
def updateTimer (stepCount : Nat) (elapsedTime : Int) : Rat :=
  if 0 < elapsedTime then
    toFixed1 ((stepCount : Rat) / ((elapsedTime : Rat) / 60000))
  else 0

/-- The record-saving decision of `stopTracking` (`src/app.js` lines
185–198): capture `duration := elapsedTime` and `steps := stepCount`,
compute `stepsPerMinute` guarded against division by zero, and push a
`WalkRecord` to the store iff `duration > 1000`.  `now` is the epoch
value of `new Date()` at the moment of the stop. -/
def stopTracking (elapsedTime : Int) (stepCount : Nat) (now : Int) :
    Option WalkRecord :=
  let duration := elapsedTime
  let steps := stepCount
  let stepsPerMinute : Rat :=
    if 0 < duration then toFixed1 ((steps : Rat) / ((duration : Rat) / 60000))
    else 0
  if 1000 < duration then
    some { date := now, duration := duration, steps := steps,
           stepsPerMinute := stepsPerMinute }
  else
    none

/-- The `currentPeriod` selector (`src/app.js` line 36 and the period
buttons). -/
inductive Period where
  | week
  | month
  | all
deriving DecidableEq, Repr

/-- `getFilteredWalks` (`src/app.js` lines 362–381): `week` keeps records
with `new Date(w.date) >= now − 7·24·60·60·1000`, `month` the same with a
30-day window, `all` keeps everything.  The walks list itself is left
untouched (the code filters into a fresh array). -/
def getFilteredWalks (currentPeriod : Period) (now : Int)
    (walks : List WalkRecord) : List WalkRecord :=
  match currentPeriod with
  | .week => walks.filter fun w => decide (now - 7 * 24 * 60 * 60 * 1000 ≤ w.date)
  | .month => walks.filter fun w => decide (now - 30 * 24 * 60 * 60 * 1000 ≤ w.date)
  | .all => walks

/-- The four aggregate readouts written by `updateHistoryStats`
(`src/app.js` lines 467–486). -/
structure HistoryStats where
  avgSteps : Int
  avgPace : Rat
  totalWalks : Nat
  totalSteps : Nat
deriving DecidableEq, Repr

/-- `updateHistoryStats` (`src/app.js` lines 467–486) over an
already-filtered list of walks: all four readouts are `0` for an empty
list; otherwise `totalSteps` is the sum of `steps`, `avgSteps` is
`Math.round(totalSteps / walks.length)`, and `avgPace` is the mean of the
records' stored `stepsPerMinute` rendered with `toFixed(1)`. -/
def updateHistoryStats (walks : List WalkRecord) : HistoryStats :=
  if walks.length = 0 then
    { avgSteps := 0, avgPace := 0, totalWalks := 0, totalSteps := 0 }
  else
    let totalSteps : Nat := (walks.map (·.steps)).sum
    let avgSteps := jsRound ((totalSteps : Rat) / (walks.length : Rat))
    let avgPace :=
      toFixed1 ((walks.map (·.stepsPerMinute)).sum / (walks.length : Rat))
    { avgSteps := avgSteps, avgPace := avgPace, totalWalks := walks.length,
      totalSteps := totalSteps }

/-- JSON values, the codomain of the host's `JSON.parse` and domain of
`JSON.stringify`.  ISO-8601 date strings (the only strings the app ever
stores, produced by `Date.prototype.toISOString`) are represented by the
constructor `isoDate` carrying their epoch-millisecond value; the textual
ISO format is an injective rendering of that value, so nothing is lost. -/
inductive Json where
  | null
  | bool (b : Bool)
  | num (q : Rat)
  | isoDate (ms : Int)
  | arr (elems : List Json)
  | obj (fields : List (String × Json))

/-- A JavaScript string as held in `localStorage`, abstracted at the level
`JSON.parse` sees it: the empty string (falsy in the `saved ? … : …` test
of `loadWalks`), a well-formed JSON text denoting exactly the value `j`,
or a malformed text on which `JSON.parse` throws a `SyntaxError`. -/
inductive JsString where
  | empty
  | wellFormed (j : Json)
  | malformed

/-- Model of the host `JSON.stringify`: it always yields a well-formed
text denoting exactly its argument. -/
def jsonStringify (j : Json) : JsString := .wellFormed j

/-- The object literal pushed by `stopTracking` for one walk, as
serialized: `{date, duration, steps, stepsPerMinute}`
(`src/app.js` lines 192–197). -/
def encodeWalk (w : WalkRecord) : Json :=
  .obj [("date", .isoDate w.date),
        ("duration", .num (w.duration : Rat)),
        ("steps", .num (w.steps : Rat)),
        ("stepsPerMinute", .num w.stepsPerMinute)]

/-- The serialized form of the whole store: a JSON array of walk
objects, `JSON.stringify(this.walks)`. -/
def encodeWalks (walks : List WalkRecord) : Json :=
  .arr (walks.map encodeWalk)

/-- Reading one parsed walk object back as a `WalkRecord`, the way the
rest of the app consumes `this.walks` elements (fields `date`,
`duration`, `steps`, `stepsPerMinute`, with `duration` and `steps`
integral and `steps` nonnegative). -/
def decodeWalk : Json → Option WalkRecord
  | .obj [("date", .isoDate d), ("duration", .num dur),
          ("steps", .num st), ("stepsPerMinute", .num spm)] =>
    if dur.den = 1 ∧ st.den = 1 ∧ 0 ≤ st.num then
      some { date := d, duration := dur.num, steps := st.num.toNat,
             stepsPerMinute := spm }
    else none
  | _ => none

/-- Reading a parsed array of walk objects back as records, failing if
any element fails. -/
def decodeWalkList : List Json → Option (List WalkRecord)
  | [] => some []
  | j :: rest =>
    match decodeWalk j, decodeWalkList rest with
    | some w, some ws => some (w :: ws)
    | _, _ => none

/-- Reading the whole parsed store value back as records. -/
def decodeWalks : Json → Option (List WalkRecord)
  | .arr elems => decodeWalkList elems
  | _ => none

/-- `saveWalk` (`src/app.js` lines 345–348): append the record to
`this.walks` and write `JSON.stringify(this.walks)` to storage.  Returns
the new in-memory list and the stored string. -/
def saveWalk (walks : List WalkRecord) (walkData : WalkRecord) :
    List WalkRecord × JsString :=
  let walks' := walks ++ [walkData]
  (walks', jsonStringify (encodeWalks walks'))

/-- `loadWalks` (`src/app.js` lines 350–353):
`const saved = localStorage.getItem(…); this.walks = saved ?
JSON.parse(saved) : []`.  The argument is `localStorage.getItem`'s result
(`none` for `null`).  A missing or empty (falsy) string yields the empty
array; a well-formed string yields its parsed value unexamined; a
malformed string makes `JSON.parse` throw, and there is no `try`/`catch`,
so the error propagates (`Except.error`). -/
def loadWalks : Option JsString → Except Unit Json
  | none => .ok (.arr [])
  | some .empty => .ok (.arr [])
  | some (.wellFormed j) => .ok j
  | some .malformed => .error ()

/-- Model of `Array.prototype.splice(start, 1)` on a list: ECMAScript
clamps `start` into `[0, length]`, counting from the end when negative,
then removes at most one element at that position. -/
def splice1 (l : List WalkRecord) (start : Int) : List WalkRecord :=
  let len : Int := l.length
  let actual : Nat :=
    (if start < 0 then max (len + start) 0 else min start len).toNat
  l.take actual ++ l.drop (actual + 1)

/-- `deleteWalk` (`src/app.js` lines 355–360): `this.walks.splice(index,
1)` then persist the full collection.  Returns the new in-memory list and
the stored string. -/
def deleteWalk (walks : List WalkRecord) (index : Int) :
    List WalkRecord × JsString :=
  let walks' := splice1 walks index
  (walks', jsonStringify (encodeWalks walks'))

/-- Step-detection parameters (`src/app.js` lines 17–22). -/
def stepThreshold : ℝ := 1.2

/-- Minimum milliseconds between steps (`src/app.js` line 20). -/
def minStepInterval : Int := 250

/-- Smoothing-buffer capacity (`src/app.js` line 22). -/
def bufferSize : Nat := 4

/-- The gravity baseline subtracted in `handleMotion`
(`src/app.js` line 294). -/
def gravity : ℝ := 9.8

/-- The `accelerationIncludingGravity` payload of a `devicemotion` event:
each axis may be absent (`undefined`, mapped to `0` by `x || 0`). -/
structure MotionSample where
  x : Option ℝ
  y : Option ℝ
  z : Option ℝ

/-- One `devicemotion` event as seen by `handleMotion`: the acceleration
payload (`null` possible) and the value of `Date.now()` at the moment the
handler runs. -/
structure MotionEvent where
  accelerationIncludingGravity : Option MotionSample
  now : Int

/-- The part of the tracker's state that `handleMotion` reads or writes
(`src/app.js` lines 9, 12, 19, 21). -/
structure MotionState where
  isTracking : Bool
  stepCount : Nat
  lastStepTime : Int
  accelerationBuffer : List ℝ

/-- The acceleration magnitude `sqrt((x||0)² + (y||0)² + (z||0)²)`
(`src/app.js` lines 277–281); a missing axis contributes `0`. -/
noncomputable def magnitude (a : MotionSample) : ℝ :=
  Real.sqrt ((a.x.getD 0) ^ 2 + (a.y.getD 0) ^ 2 + (a.z.getD 0) ^ 2)

/-- The buffer update of `handleMotion` (`src/app.js` lines 284–287):
push the new magnitude, and `shift()` the oldest entry away if the
length now exceeds `bufferSize`. -/
def pushBuffer (buf : List ℝ) (m : ℝ) : List ℝ :=
  let buf' := buf ++ [m]
  if bufferSize < buf'.length then buf'.tail else buf'

/-- The smoothed output: the arithmetic mean of the buffer contents,
`buffer.reduce((a, b) => a + b, 0) / buffer.length`
(`src/app.js` line 290). -/
noncomputable def smoothed (buf : List ℝ) : ℝ := buf.sum / (buf.length : ℝ)

/-- `registerStep` (`src/app.js` lines 312–320): increment the step
count (the DOM write and haptic pulse are presentation effects). -/
def registerStep (st : MotionState) : MotionState :=
  { st with stepCount := st.stepCount + 1 }

open Classical in
/-- `handleMotion` (`src/app.js` lines 270–301).  Returns the updated
state together with whether `registerStep` fired on this event: bail out
when not tracking or when the event carries no acceleration; otherwise
push the magnitude into the smoothing buffer, and if the smoothed
deviation from gravity exceeds `stepThreshold` while more than
`minStepInterval` ms have passed since `lastStepTime`, register a step
and set `lastStepTime` to now. -/
noncomputable def handleMotion (st : MotionState) (event : MotionEvent) :
    MotionState × Bool :=
  if !st.isTracking then (st, false)
  else
    match event.accelerationIncludingGravity with
    | none => (st, false)
    | some acceleration =>
      let buf := pushBuffer st.accelerationBuffer (magnitude acceleration)
      let avgMagnitude := smoothed buf
      let deltaAcc := |avgMagnitude - gravity|
      if stepThreshold < deltaAcc ∧
          minStepInterval < event.now - st.lastStepTime then
        ({ registerStep st with
            accelerationBuffer := buf
            lastStepTime := event.now }, true)
      else
        ({ st with accelerationBuffer := buf }, false)

/-- Feed a list of motion events through `handleMotion`, collecting the
final state and the timestamps of the emitted step events in order. -/
noncomputable def processMotions (st : MotionState) :
    List MotionEvent → MotionState × List Int
  | [] => (st, [])
  | event :: rest =>
    let r := handleMotion st event
    let r' := processMotions r.1 rest
    (r'.1, (if r.2 then [event.now] else []) ++ r'.2)

/-! ## Claim theorems -/

/-- C1: stopping a session creates a `WalkRecord` iff the captured
`elapsedTime` exceeds 1000 ms; the record's `duration` and `steps` are the
captured `elapsedTime` and `stepCount`, and its `stepsPerMinute` is
`stepCount / (elapsedTime / 60000)` to one decimal place.  In particular a
stop with `elapsedTime = 500` produces no record, and a stop with
`elapsedTime = 65000`, `stepCount = 130` produces
`{duration := 65000, steps := 130, stepsPerMinute := 120.0}`. -/
theorem claimC1_stopTracking :
    (∀ (elapsedTime : Int) (stepCount : Nat) (now : Int),
      (stopTracking elapsedTime stepCount now).isSome ↔ 1000 < elapsedTime) ∧
    (∀ (elapsedTime : Int) (stepCount : Nat) (now : Int),
      1000 < elapsedTime →
        stopTracking elapsedTime stepCount now =
          some { date := now, duration := elapsedTime, steps := stepCount,
                 stepsPerMinute :=
                   toFixed1 ((stepCount : Rat) / ((elapsedTime : Rat) / 60000)) }) ∧
    (∀ (stepCount : Nat) (now : Int), stopTracking 500 stepCount now = none) ∧
    (∀ now : Int,
      stopTracking 65000 130 now =
        some { date := now, duration := 65000, steps := 130,
               stepsPerMinute := 120 }) := by
  have hsome : ∀ (e : Int) (s : Nat) (n : Int), 1000 < e →
      stopTracking e s n =
        some { date := n, duration := e, steps := s,
               stepsPerMinute := toFixed1 ((s : Rat) / ((e : Rat) / 60000)) } := by
    intro e s n h
    have h0 : (0 : Int) < e := by omega
    simp [stopTracking, h, h0]
  refine ⟨?_, hsome, ?_, ?_⟩
  · intro e s n
    by_cases h : 1000 < e
    · simp [stopTracking, h]
    · simp [stopTracking, h]
  · intro s n
    simp [stopTracking]
  · intro n
    rw [hsome 65000 130 n (by omega)]
    norm_num [toFixed1]

/-- Witness for C1: evaluating `stopTracking` at the concrete stop
`elapsedTime = 65000`, `stepCount = 130`, `now = 7`. -/
theorem claimC1_stopTracking_witness :
    stopTracking 65000 130 7 =
      some { date := 7, duration := 65000, steps := 130,
             stepsPerMinute := toFixed1 ((130 : Rat) / ((65000 : Rat) / 60000)) } :=
  claimC1_stopTracking.2.1 65000 130 7 (by omega)

/-- C6: the live pace readout is `stepCount / (elapsedTime / 60000)` steps
per minute (to one decimal place), guarded against division by zero:
`elapsedTime = 0` yields `0` for every `stepCount`, and `elapsedTime =
60000` with `stepCount = 120` yields `120.0`. -/
theorem claimC6_updateTimer :
    (∀ stepCount : Nat, updateTimer stepCount 0 = 0) ∧
    updateTimer 120 60000 = 120 ∧
    (∀ (stepCount : Nat) (elapsedTime : Int), 0 < elapsedTime →
      updateTimer stepCount elapsedTime =
        toFixed1 ((stepCount : Rat) / ((elapsedTime : Rat) / 60000))) := by
  have hpos : ∀ (s : Nat) (e : Int), 0 < e →
      updateTimer s e = toFixed1 ((s : Rat) / ((e : Rat) / 60000)) := by
    intro s e h
    simp [updateTimer, h]
  refine ⟨?_, ?_, hpos⟩
  · intro s
    simp [updateTimer]
  · rw [hpos 120 60000 (by omega)]
    norm_num [toFixed1]

/-- Witness for C6: evaluating the guarded pace formula at
`stepCount = 7`, `elapsedTime = 100`. -/
theorem claimC6_updateTimer_witness :
    updateTimer 7 100 = toFixed1 ((7 : Rat) / ((100 : Rat) / 60000)) :=
  claimC6_updateTimer.2.2 7 100 (by omega)

/-- C3 counterexample: contrary to the claim that a read failure never
propagates an error out of the load operation, a stored string on which
`JSON.parse` throws makes `loadWalks` propagate the exception — there is
no `try`/`catch` around `JSON.parse(saved)` in `src/app.js` lines
350–353. -/
theorem claimC3_counterexample :
    loadWalks (some .malformed) = .error () := rfl

/-- C3 (amended): loading returns the full stored collection when the
stored string is well-formed, and the empty collection when no prior data
exists (missing or empty stored string); but when deserialization of the
stored string fails, the `JSON.parse` exception propagates out of the
load operation uncaught. -/
theorem claimC3_loadWalks :
    loadWalks none = .ok (.arr []) ∧
    loadWalks (some .empty) = .ok (.arr []) ∧
    (∀ j : Json, loadWalks (some (.wellFormed j)) = .ok j) ∧
    loadWalks (some .malformed) = .error () :=
  ⟨rfl, rfl, fun _ => rfl, rfl⟩

/-- C4 counterexample: index `−1` is out of range for the one-record
collection `[r]` (valid positions are `0 ≤ i < 1`), yet `delete(−1)` is
not a no-op: JavaScript `splice` counts negative indices from the end and
removes the last record. -/
theorem claimC4_counterexample :
    ¬ (0 ≤ (-1 : Int) ∧
        (-1 : Int) < ([(⟨0, 2000, 10, 300⟩ : WalkRecord)].length : Int)) ∧
    (deleteWalk [(⟨0, 2000, 10, 300⟩ : WalkRecord)] (-1)).1 ≠
      [(⟨0, 2000, 10, 300⟩ : WalkRecord)] := by
  constructor
  · decide
  · decide

/-- C4 (amended): `delete(index)` is a silent no-op leaving the
collection unchanged for every index at or beyond the collection's
length; but a negative index is interpreted relative to the end of the
collection (JavaScript `splice` semantics), so e.g. `delete(−1)` removes
the last record. -/
theorem claimC4_deleteWalk :
    (∀ (walks : List WalkRecord) (index : Int),
      (walks.length : Int) ≤ index → (deleteWalk walks index).1 = walks) ∧
    (∀ (walks : List WalkRecord) (w : WalkRecord),
      (deleteWalk (walks ++ [w]) (-1)).1 = walks) := by
  constructor
  · intro walks index h
    have hnotneg : ¬ index < 0 := by omega
    have hmin : min index (walks.length : Int) = (walks.length : Int) :=
      min_eq_right h
    simp only [deleteWalk, splice1, hnotneg, if_false, hmin, Int.toNat_natCast]
    rw [List.take_of_length_le (le_refl _),
        List.drop_eq_nil_of_le (by omega), List.append_nil]
  · intro walks w
    have hlen : ((walks ++ [w]).length : Int) = (walks.length : Int) + 1 := by
      simp
    have hmax : max (((walks ++ [w]).length : Int) + (-1)) 0 =
        (walks.length : Int) := by
      rw [hlen]
      omega
    simp only [deleteWalk, splice1, show ((-1 : Int) < 0) = True by simp,
      if_true, hmax, Int.toNat_natCast]
    rw [List.take_left, List.drop_eq_nil_of_le (by simp), List.append_nil]

/-- Witness for C4 (amended): deleting at index 3 in a one-record
collection (3 ≥ length 1) leaves it unchanged. -/
theorem claimC4_deleteWalk_witness :
    (deleteWalk [(⟨5, 2000, 10, 300⟩ : WalkRecord)] 3).1 =
      [(⟨5, 2000, 10, 300⟩ : WalkRecord)] :=
  claimC4_deleteWalk.1 _ 3 (by decide)

/-- C8: the statistics aggregator returns all four metrics equal to 0 on
the empty sequence; otherwise `averageSteps` is the rounded integer mean
of the records' steps, `totalSteps` their sum, `walkCount` the length,
and `averagePace` the mean of the records' stored `stepsPerMinute` to one
decimal place — over two records with paces 100 and 120 it is 110.0. -/
theorem claimC8_updateHistoryStats :
    updateHistoryStats [] =
      { avgSteps := 0, avgPace := 0, totalWalks := 0, totalSteps := 0 } ∧
    (∀ walks : List WalkRecord, walks ≠ [] →
      updateHistoryStats walks =
        { avgSteps :=
            jsRound (((walks.map (·.steps)).sum : Rat) / (walks.length : Rat)),
          avgPace :=
            toFixed1 ((walks.map (·.stepsPerMinute)).sum / (walks.length : Rat)),
          totalWalks := walks.length,
          totalSteps := (walks.map (·.steps)).sum }) ∧
    (updateHistoryStats
        [(⟨0, 60000, 100, 100⟩ : WalkRecord), ⟨1, 60000, 120, 120⟩]).avgPace =
      110 := by
  refine ⟨by decide, ?_, by norm_num [updateHistoryStats, toFixed1]⟩
  intro walks h
  have hlen : ¬ walks.length = 0 := by
    simpa [List.length_eq_zero] using h
  simp [updateHistoryStats, hlen, Function.comp_def]

/-- Witness for C8: the aggregate formulas evaluated on a concrete
nonempty list. -/
theorem claimC8_updateHistoryStats_witness :
    updateHistoryStats [(⟨0, 60000, 100, 100⟩ : WalkRecord)] =
      { avgSteps :=
          jsRound ((([(⟨0, 60000, 100, 100⟩ : WalkRecord)].map (·.steps)).sum : Rat) / 1),
        avgPace :=
          toFixed1 (([(⟨0, 60000, 100, 100⟩ : WalkRecord)].map (·.stepsPerMinute)).sum / 1),
        totalWalks := 1,
        totalSteps := ([(⟨0, 60000, 100, 100⟩ : WalkRecord)].map (·.steps)).sum } :=
  claimC8_updateHistoryStats.2.1 _ (by decide)

/-- Decoding inverts encoding on a single walk object. -/
theorem decodeWalk_encodeWalk (w : WalkRecord) :
    decodeWalk (encodeWalk w) = some w := by
  simp [decodeWalk, encodeWalk, Rat.den_intCast, Rat.num_intCast]

/-- Decoding inverts encoding elementwise on a list of walk objects. -/
theorem decodeWalkList_map_encodeWalk (walks : List WalkRecord) :
    decodeWalkList (walks.map encodeWalk) = some walks := by
  induction walks with
  | nil => rfl
  | cons w rest ih => simp [decodeWalkList, decodeWalk_encodeWalk, ih]

/-- Appending records one at a time through `saveWalk` builds exactly
the appended list. -/
theorem foldl_saveWalk (records acc : List WalkRecord) :
    records.foldl (fun a w => (saveWalk a w).1) acc = acc ++ records := by
  induction records generalizing acc with
  | nil => simp
  | cons w rest ih =>
    simp only [List.foldl_cons]
    rw [show (saveWalk acc w).1 = acc ++ [w] from rfl, ih]
    simp

/-- C5: persistence round-trips exactly — appending any `N` records to an
empty store via `saveWalk` yields those records; the serialized
collection read back by `loadWalks` is exactly the stored value; and
decoding the serialized collection recovers the identical `N` records in
the same order. -/
theorem claimC5_roundTrip (records : List WalkRecord) :
    (records.foldl (fun a w => (saveWalk a w).1) []) = records ∧
    loadWalks (some (jsonStringify (encodeWalks records))) =
      .ok (encodeWalks records) ∧
    decodeWalks (encodeWalks records) = some records := by
  refine ⟨?_, rfl, ?_⟩
  · simpa using foldl_saveWalk records []
  · simpa [decodeWalks, encodeWalks] using decodeWalkList_map_encodeWalk records

/-- C7: `getFilteredWalks` for period `week` returns, in the collection's
order (a sublist of the untouched store), exactly the records whose date
is at least `now − 7·24·60·60·1000`: it includes a record exactly one
hour old and excludes any record more than 7×24 h old; period `month`
does the same with a 30-day window, and period `all` returns the
collection unfiltered. -/
theorem claimC7_getFilteredWalks :
    (∀ (now : Int) (walks : List WalkRecord),
      (getFilteredWalks .week now walks).Sublist walks) ∧
    (∀ (now : Int) (walks : List WalkRecord) (w : WalkRecord),
      w ∈ getFilteredWalks .week now walks ↔
        w ∈ walks ∧ now - 7 * 24 * 60 * 60 * 1000 ≤ w.date) ∧
    (∀ (now : Int) (walks : List WalkRecord) (w : WalkRecord),
      w ∈ walks → w.date = now - 60 * 60 * 1000 →
        w ∈ getFilteredWalks .week now walks) ∧
    (∀ (now : Int) (walks : List WalkRecord) (w : WalkRecord),
      w.date < now - 7 * 24 * 60 * 60 * 1000 →
        w ∉ getFilteredWalks .week now walks) ∧
    (∀ (now : Int) (walks : List WalkRecord),
      (getFilteredWalks .month now walks).Sublist walks) ∧
    (∀ (now : Int) (walks : List WalkRecord) (w : WalkRecord),
      w ∈ getFilteredWalks .month now walks ↔
        w ∈ walks ∧ now - 30 * 24 * 60 * 60 * 1000 ≤ w.date) ∧
    (∀ (now : Int) (walks : List WalkRecord),
      getFilteredWalks .all now walks = walks) := by
  have hweek : ∀ (now : Int) (walks : List WalkRecord) (w : WalkRecord),
      w ∈ getFilteredWalks .week now walks ↔
        w ∈ walks ∧ now - 7 * 24 * 60 * 60 * 1000 ≤ w.date := by
    intro now walks w
    simp [getFilteredWalks, List.mem_filter]
  refine ⟨?_, hweek, ?_, ?_, ?_, ?_, ?_⟩
  · intro now walks
    exact List.filter_sublist walks
  · intro now walks w hw hdate
    exact (hweek now walks w).mpr ⟨hw, by omega⟩
  · intro now walks w hdate hmem
    have := ((hweek now walks w).mp hmem).2
    omega
  · intro now walks
    exact List.filter_sublist walks
  · intro now walks w
    simp [getFilteredWalks, List.mem_filter]
  · intro now walks
    rfl

/-- Witness for C7: with `now = 10⁹`, a record dated exactly one hour
earlier is kept by the week filter, and a record dated at epoch 0 (more
than 7×24 h earlier) is dropped. -/
theorem claimC7_getFilteredWalks_witness :
    (⟨996400000, 60000, 100, 100⟩ : WalkRecord) ∈
      getFilteredWalks .week 1000000000
        [(⟨996400000, 60000, 100, 100⟩ : WalkRecord)] ∧
    (⟨0, 60000, 100, 100⟩ : WalkRecord) ∉
      getFilteredWalks .week 1000000000
        [(⟨0, 60000, 100, 100⟩ : WalkRecord)] := by
  constructor
  · exact claimC7_getFilteredWalks.2.2.1 1000000000 _ _ (by simp) (by decide)
  · exact claimC7_getFilteredWalks.2.2.2.1 1000000000 _ _ (by decide)

/-- `handleMotion` bails out untouched when the session is not
tracking. -/
theorem handleMotion_not_tracking (st : MotionState) (ev : MotionEvent)
    (h : st.isTracking = false) : handleMotion st ev = (st, false) := by
  simp [handleMotion, h]

/-- `handleMotion` bails out untouched when the event carries no
acceleration payload. -/
theorem handleMotion_no_accel (st : MotionState) (ev : MotionEvent)
    (h : ev.accelerationIncludingGravity = none) :
    handleMotion st ev = (st, false) := by
  cases hT : st.isTracking with
  | false => exact handleMotion_not_tracking st ev hT
  | true => simp [handleMotion, hT, h]

open Classical in
/-- Unfolding of `handleMotion` on a tracking state and an event carrying
an acceleration payload. -/
theorem handleMotion_some (st : MotionState) (ev : MotionEvent)
    (a : MotionSample) (hT : st.isTracking = true)
    (hA : ev.accelerationIncludingGravity = some a) :
    handleMotion st ev =
      (if stepThreshold <
            |smoothed (pushBuffer st.accelerationBuffer (magnitude a)) - gravity| ∧
          minStepInterval < ev.now - st.lastStepTime then
        ({ st with
            stepCount := st.stepCount + 1
            accelerationBuffer := pushBuffer st.accelerationBuffer (magnitude a)
            lastStepTime := ev.now }, true)
      else
        ({ st with
            accelerationBuffer := pushBuffer st.accelerationBuffer (magnitude a) },
          false)) := by
  simp only [handleMotion, hT, hA, Bool.not_true, Bool.false_eq_true, if_false,
    registerStep]

/-- When `handleMotion` fires a step, the session was tracking, the event
carried an acceleration whose smoothed deviation from gravity exceeded
the threshold, more than `minStepInterval` ms had passed since
`lastStepTime`, and the new state is the old one with the step counted,
the buffer updated and `lastStepTime` set to the event's time. -/
theorem handleMotion_fired (st : MotionState) (ev : MotionEvent)
    (h : (handleMotion st ev).2 = true) :
    st.isTracking = true ∧
    ∃ a, ev.accelerationIncludingGravity = some a ∧
      stepThreshold <
        |smoothed (pushBuffer st.accelerationBuffer (magnitude a)) - gravity| ∧
      minStepInterval < ev.now - st.lastStepTime ∧
      (handleMotion st ev).1 =
        { st with
            stepCount := st.stepCount + 1
            accelerationBuffer := pushBuffer st.accelerationBuffer (magnitude a)
            lastStepTime := ev.now } := by
  cases hT : st.isTracking with
  | false => rw [handleMotion_not_tracking st ev hT] at h; simp at h
  | true =>
    cases hA : ev.accelerationIncludingGravity with
    | none => rw [handleMotion_no_accel st ev hA] at h; simp at h
    | some a =>
      rw [handleMotion_some st ev a hT hA] at h ⊢
      by_cases hC : stepThreshold <
            |smoothed (pushBuffer st.accelerationBuffer (magnitude a)) - gravity| ∧
          minStepInterval < ev.now - st.lastStepTime
      · rw [if_pos hC]
        exact ⟨rfl, a, rfl, hC.1, hC.2, by rw [hT]⟩
      · rw [if_neg hC] at h
        simp at h

/-- When `handleMotion` does not fire, `stepCount` and `lastStepTime`
are unchanged. -/
theorem handleMotion_not_fired (st : MotionState) (ev : MotionEvent)
    (h : (handleMotion st ev).2 = false) :
    (handleMotion st ev).1.lastStepTime = st.lastStepTime ∧
    (handleMotion st ev).1.stepCount = st.stepCount := by
  cases hT : st.isTracking with
  | false => rw [handleMotion_not_tracking st ev hT]; exact ⟨rfl, rfl⟩
  | true =>
    cases hA : ev.accelerationIncludingGravity with
    | none => rw [handleMotion_no_accel st ev hA]; exact ⟨rfl, rfl⟩
    | some a =>
      rw [handleMotion_some st ev a hT hA] at h ⊢
      by_cases hC : stepThreshold <
            |smoothed (pushBuffer st.accelerationBuffer (magnitude a)) - gravity| ∧
          minStepInterval < ev.now - st.lastStepTime
      · rw [if_pos hC] at h
        simp at h
      · rw [if_neg hC]
        exact ⟨rfl, rfl⟩

/-- `handleMotion` never moves `lastStepTime` backward. -/
theorem lastStepTime_le (st : MotionState) (ev : MotionEvent) :
    st.lastStepTime ≤ (handleMotion st ev).1.lastStepTime := by
  cases hF : (handleMotion st ev).2 with
  | false => rw [(handleMotion_not_fired st ev hF).1]
  | true =>
    obtain ⟨-, a, -, -, hint, hst⟩ := handleMotion_fired st ev hF
    have hnow : (handleMotion st ev).1.lastStepTime = ev.now := by rw [hst]
    rw [hnow]
    simp only [minStepInterval] at hint
    omega

/-- Every step time emitted while processing a list of events is more
than `minStepInterval` ms after the initial `lastStepTime`. -/
theorem emitted_gt (evs : List MotionEvent) :
    ∀ (st : MotionState) (t : Int),
      t ∈ (processMotions st evs).2 → st.lastStepTime + minStepInterval < t := by
  induction evs with
  | nil => intro st t ht; simp [processMotions] at ht
  | cons ev rest ih =>
    intro st t ht
    simp only [processMotions, List.mem_append] at ht
    rcases ht with h1 | h2
    · cases hF : (handleMotion st ev).2 with
      | false => rw [hF] at h1; simp at h1
      | true =>
        rw [hF] at h1
        simp at h1
        subst h1
        obtain ⟨-, a, -, -, hint, -⟩ := handleMotion_fired st ev hF
        omega
    · have hle := lastStepTime_le st ev
      have hrec := ih (handleMotion st ev).1 t h2
      omega

/-- The emitted step times of any processed event list are pairwise more
than `minStepInterval` ms apart. -/
theorem emitted_pairwise (evs : List MotionEvent) :
    ∀ st : MotionState,
      List.Pairwise (fun a b => a + minStepInterval < b)
        (processMotions st evs).2 := by
  induction evs with
  | nil => intro st; simp [processMotions]
  | cons ev rest ih =>
    intro st
    simp only [processMotions]
    cases hF : (handleMotion st ev).2 with
    | false => simpa using ih (handleMotion st ev).1
    | true =>
      simp only [if_true, List.singleton_append, List.pairwise_cons]
      constructor
      · intro t ht
        obtain ⟨-, a, -, -, -, hst⟩ := handleMotion_fired st ev hF
        have hnow : (handleMotion st ev).1.lastStepTime = ev.now := by rw [hst]
        have hrec := emitted_gt rest (handleMotion st ev).1 t ht
        rw [hnow] at hrec
        exact hrec
      · exact ih (handleMotion st ev).1

/-- C2: during processing of any sequence of motion events, the emitted
step events are pairwise more than `minStepInterval` (250 ms) apart — so
no two occur less than 250 ms apart; moreover a step fires only when the
smoothed magnitude's deviation from gravity (9.8) exceeds
`stepThreshold` (1.2) and more than `minStepInterval` has passed since
`lastStepTime`, and `lastStepTime` is set to the current time on each
emission. -/
theorem claimC2_noCloseSteps :
    (∀ (st : MotionState) (events : List MotionEvent),
      List.Pairwise (fun a b => a + minStepInterval < b)
        (processMotions st events).2) ∧
    (∀ (st : MotionState) (event : MotionEvent),
      (handleMotion st event).2 = true →
        st.isTracking = true ∧
        ∃ a, event.accelerationIncludingGravity = some a ∧
          stepThreshold <
            |smoothed (pushBuffer st.accelerationBuffer (magnitude a)) -
              gravity| ∧
          minStepInterval < event.now - st.lastStepTime ∧
          (handleMotion st event).1.lastStepTime = event.now) := by
  constructor
  · intro st events
    exact emitted_pairwise events st
  · intro st event h
    obtain ⟨hT, a, hA, hthr, hint, hst⟩ := handleMotion_fired st event h
    exact ⟨hT, a, hA, hthr, hint, by rw [hst]⟩

/-- Witness for C2: a concrete motion event (all axes reading 0, so the
smoothed magnitude deviates from gravity by 9.8 > 1.2) at time 300 on a
fresh tracking state fires a step, more than 250 ms after the initial
`lastStepTime` 0, and sets `lastStepTime` to 300. -/
theorem claimC2_noCloseSteps_witness :
    (handleMotion ⟨true, 0, 0, []⟩
        ⟨some ⟨some 0, some 0, some 0⟩, 300⟩).2 = true ∧
    minStepInterval < (300 : Int) - (0 : Int) ∧
    (handleMotion ⟨true, 0, 0, []⟩
        ⟨some ⟨some 0, some 0, some 0⟩, 300⟩).1.lastStepTime = 300 := by
  have hmag : magnitude ⟨some 0, some 0, some 0⟩ = 0 := by
    simp [magnitude]
  have hfired : (handleMotion ⟨true, 0, 0, []⟩
      ⟨some ⟨some 0, some 0, some 0⟩, 300⟩).2 = true := by
    rw [handleMotion_some _ _ _ rfl rfl, hmag]
    rw [if_pos]
    constructor
    · show stepThreshold < |smoothed (pushBuffer [] 0) - gravity|
      have hbuf : pushBuffer [] 0 = [0] := rfl
      rw [hbuf]
      have hsm : smoothed [0] = 0 := by
        simp [smoothed]
      rw [hsm]
      have habs : |(0 : ℝ) - gravity| = gravity := by
        rw [zero_sub, abs_neg, abs_of_nonneg (by norm_num [gravity])]
      rw [habs]
      norm_num [stepThreshold, gravity]
    · norm_num [minStepInterval]
  have h := claimC2_noCloseSteps.2 _ _ hfired
  obtain ⟨-, a, -, -, hint, hlast⟩ := h
  exact ⟨hfired, hint, hlast⟩

/-- The buffer update keeps the buffer within `bufferSize`. -/
theorem pushBuffer_length (buf : List ℝ) (m : ℝ)
    (h : buf.length ≤ bufferSize) :
    (pushBuffer buf m).length ≤ bufferSize := by
  unfold pushBuffer
  by_cases hc : bufferSize < (buf ++ [m]).length
  · rw [if_pos hc]
    simp only [List.length_tail, List.length_append, List.length_singleton]
    omega
  · rw [if_neg hc]
    simp only [List.length_append, List.length_singleton] at hc ⊢
    omega

/-- One `handleMotion` call keeps the buffer within `bufferSize`. -/
theorem handleMotion_buffer_length (st : MotionState) (ev : MotionEvent)
    (h : st.accelerationBuffer.length ≤ bufferSize) :
    (handleMotion st ev).1.accelerationBuffer.length ≤ bufferSize := by
  cases hT : st.isTracking with
  | false => rw [handleMotion_not_tracking st ev hT]; exact h
  | true =>
    cases hA : ev.accelerationIncludingGravity with
    | none => rw [handleMotion_no_accel st ev hA]; exact h
    | some a =>
      rw [handleMotion_some st ev a hT hA]
      by_cases hC : stepThreshold <
            |smoothed (pushBuffer st.accelerationBuffer (magnitude a)) - gravity| ∧
          minStepInterval < ev.now - st.lastStepTime
      · rw [if_pos hC]
        exact pushBuffer_length _ _ h
      · rw [if_neg hC]
        exact pushBuffer_length _ _ h

/-- C9: processing any sequence of motion samples keeps the acceleration
buffer at or below `bufferSize` (4) entries — both per event and along a
whole event list; when the buffer is full the oldest entry is evicted
first and the new magnitude appended, otherwise the magnitude is simply
appended; the smoothed output is the arithmetic mean of the buffer
contents; and a sample with a missing axis component is treated as having
0 for that component. -/
theorem claimC9_signalFilter :
    (∀ (st : MotionState) (event : MotionEvent),
      st.accelerationBuffer.length ≤ bufferSize →
        (handleMotion st event).1.accelerationBuffer.length ≤ bufferSize) ∧
    (∀ (st : MotionState) (events : List MotionEvent),
      st.accelerationBuffer.length ≤ bufferSize →
        (processMotions st events).1.accelerationBuffer.length ≤ bufferSize) ∧
    (∀ (buf : List ℝ) (m : ℝ), buf.length = bufferSize →
      pushBuffer buf m = buf.tail ++ [m]) ∧
    (∀ (buf : List ℝ) (m : ℝ), buf.length < bufferSize →
      pushBuffer buf m = buf ++ [m]) ∧
    (∀ buf : List ℝ, smoothed buf = buf.sum / (buf.length : ℝ)) ∧
    (∀ y z : Option ℝ,
      magnitude ⟨none, y, z⟩ = magnitude ⟨some 0, y, z⟩) ∧
    (∀ x z : Option ℝ,
      magnitude ⟨x, none, z⟩ = magnitude ⟨x, some 0, z⟩) ∧
    (∀ x y : Option ℝ,
      magnitude ⟨x, y, none⟩ = magnitude ⟨x, y, some 0⟩) := by
  refine ⟨handleMotion_buffer_length, ?_, ?_, ?_, fun _ => rfl,
    fun _ _ => rfl, fun _ _ => rfl, fun _ _ => rfl⟩
  · intro st events
    induction events generalizing st with
    | nil => intro h; exact h
    | cons ev rest ih =>
      intro h
      exact ih (handleMotion st ev).1 (handleMotion_buffer_length st ev h)
  · intro buf m h
    unfold pushBuffer
    rw [if_pos (by simp [h])]
    cases buf with
    | nil => simp [bufferSize] at h
    | cons b rest => rfl
  · intro buf m h
    unfold pushBuffer
    rw [if_neg (by simp; omega)]

/-- Witness for C9: the length bounds, eviction and append forms
evaluated at concrete buffers and a concrete event stream. -/
theorem claimC9_signalFilter_witness :
    (handleMotion ⟨true, 0, 0, [(9 : ℝ), 10, 11, 12]⟩
        ⟨some ⟨some 0, some 0, some 0⟩, 300⟩).1.accelerationBuffer.length ≤
      bufferSize ∧
    (processMotions ⟨true, 0, 0, []⟩
        [⟨some ⟨some 0, some 0, some 0⟩, 300⟩,
         ⟨some ⟨some 0, some 0, some 0⟩, 400⟩]).1.accelerationBuffer.length ≤
      bufferSize ∧
    pushBuffer [(9 : ℝ), 10, 11, 12] 13 = [10, 11, 12, 13] ∧
    pushBuffer [(9 : ℝ)] 10 = [9, 10] := by
  refine ⟨claimC9_signalFilter.1 _ _ (by decide),
    claimC9_signalFilter.2.1 _ _ (by decide), ?_, ?_⟩
  · rw [claimC9_signalFilter.2.2.1 [(9 : ℝ), 10, 11, 12] 13 (by decide)]
    rfl
  · rw [claimC9_signalFilter.2.2.2.1 [(9 : ℝ)] 10 (by decide)]
    rfl

/-- C10: a motion event delivered while the session is not tracking
leaves the entire motion-relevant session state unchanged and registers
no step — `handleMotion` returns before touching the acceleration
buffer, `stepCount`, or `lastStepTime`. -/
theorem claimC10_idleMotion (st : MotionState) (ev : MotionEvent)
    (h : st.isTracking = false) : handleMotion st ev = (st, false) :=
  handleMotion_not_tracking st ev h

/-- Witness for C10: a concrete stray motion event on a concrete idle
state is a no-op. -/
theorem claimC10_idleMotion_witness :
    handleMotion ⟨false, 5, 100, [(9 : ℝ)]⟩
        ⟨some ⟨some 0, some 0, some 0⟩, 999⟩ =
      (⟨false, 5, 100, [(9 : ℝ)]⟩, false) :=
  claimC10_idleMotion _ _ rfl

end StepTracker
